import Mathlib

/-!
Shallow embedding of `MysqlCompareUtil.py`, the MySQL schema comparison
utility.  The core under verification is `compare_table_structures`
(source lines 34-86), which takes two schemas — Python dicts mapping a
table name to the list of `DESCRIBE` rows of that table — and returns
the diff structure `{'only_in_sit': ..., 'only_in_uat': ...,
'different_tables': ...}`.

Python dicts are embedded as association lists (`Dict α` below) with
insert-or-overwrite assignment (`dinsert`) and first-match lookup
(`dget`); a dict built by assignment never holds two pairs with the
same key, so first-match lookup agrees with Python dict access.  A raw
`DESCRIBE` row — the 6-tuple `(Field, Type, Null, Key, Default, Extra)`
— is embedded as the structure `Field`, with the default value an
`Option String` since MySQL reports "no default" as `NULL` (Python
`None`).  String comparison is Lean's exact `String` equality, matching
Python's exact tuple/string `!=` with no normalization.
-/

namespace MysqlCompareUtil

/-- One raw column row as returned by `DESCRIBE table`: the 6-tuple
`(Field, Type, Null, Key, Default, Extra)` the Python code indexes as
`field[0] .. field[5]`. -/
structure Field where
  fname : String
  ftype : String
  fnull : String
  fkey : String
  fdefault : Option String
  fextra : String
deriving DecidableEq, Repr

/-- A Python dict with `String` keys, as an association list in key
insertion order. -/
abbrev Dict (α : Type) := List (String × α)

/-- Key list of a dict (`d.keys()` in insertion order). -/
def dkeys {α : Type} (d : Dict α) : List String := d.map Prod.fst

/-- Dict access `d[k]`: the value of the first pair whose key is `k`,
`none` when the key is absent (Python would raise `KeyError`). -/
def dget {α : Type} (d : Dict α) (k : String) : Option α :=
  match d with
  | [] => none
  | (k', v) :: rest => if k' = k then some v else dget rest k

/-- Dict assignment `d[k] = v`: overwrite the value when the key is
present, append the pair otherwise. -/
def dinsert {α : Type} (d : Dict α) (k : String) (v : α) : Dict α :=
  if k ∈ dkeys d then d.map (fun p => if p.1 = k then (k, v) else p)
  else d ++ [(k, v)]

/-- The dict comprehension `{field[0]: field for field in rows}` of
source lines 57-58: fold the rows into a dict keyed by column name,
a later row with the same name overwriting an earlier one. -/
def fieldsDict (rows : List Field) : Dict Field :=
  rows.foldl (fun d f => dinsert d f.fname f) []

/-- A loop that walks a key list and assigns `g k` into an initially
empty dict for every `k` with `g k ≠ none`: the shape of the two
accumulation loops of `compare_table_structures` (lines 75-81 for
fields, lines 56-84 for tables). -/
def buildDict {α : Type} (l : List String) (g : String → Option α) : Dict α :=
  l.foldl (fun acc k =>
    match g k with
    | some v => dinsert acc k v
    | none => acc) []

/-- The entry stored in `different_fields` for one differing shared
column (source lines 77-81): the two raw rows plus the explicitly
recomputed default-value flag `fields1[field][4] != fields2[field][4]`. -/
structure ColumnDiff where
  db1 : Field
  db2 : Field
  default_value_diff : Bool
deriving DecidableEq, Repr

/-- The per-table diff dict `diff_fields` (source lines 60-64). -/
structure TableDiff where
  only_in_sit : List String
  only_in_uat : List String
  different_fields : Dict ColumnDiff
deriving DecidableEq, Repr

/-- The top-level result dict (source lines 41-45). -/
structure DiffResult where
  only_in_sit : List String
  only_in_uat : List String
  different_tables : Dict TableDiff
deriving DecidableEq, Repr

/-- Source lines 76-81: a shared column contributes an entry exactly
when the full 6-tuples compare unequal (`fields1[field] !=
fields2[field]`); the entry carries both rows and the default-value
flag. -/
def columnDiffOf (f1 f2 : Field) : Option ColumnDiff :=
  if f1 ≠ f2 then some ⟨f1, f2, decide (f1.fdefault ≠ f2.fdefault)⟩ else none

/-- Source lines 57-81, the body of the per-table loop: build the two
name-keyed dicts, take the set differences and the intersection of the
column-name sets, and collect the attribute-differing shared columns. -/
def compareFields (rows1 rows2 : List Field) : TableDiff :=
  let fields1 := fieldsDict rows1
  let fields2 := fieldsDict rows2
  let field_names1 := dkeys fields1
  let field_names2 := dkeys fields2
  let only_sit := field_names1.filter (fun n => decide (n ∉ field_names2))
  let only_uat := field_names2.filter (fun n => decide (n ∉ field_names1))
  let common_fields := field_names1.filter (fun n => decide (n ∈ field_names2))
  let diffs := buildDict common_fields (fun n =>
    match dget fields1 n, dget fields2 n with
    | some f1, some f2 => columnDiffOf f1 f2
    | _, _ => none)
  ⟨only_sit, only_uat, diffs⟩

/-- Source line 83, `any(diff_fields.values())`: at least one of the
three parts of the per-table diff is truthy, i.e. non-empty. -/
def tableDiffNonempty (d : TableDiff) : Bool :=
  !d.only_in_sit.isEmpty || !d.only_in_uat.isEmpty || !d.different_fields.isEmpty

/-- The differ, source lines 34-86: table-level set differences over
the two key sets, then for every shared table the per-table comparison,
recorded in `different_tables` only when some part of it is non-empty. -/
def compare_table_structures (db1 db2 : Dict (List Field)) : DiffResult :=
  let tables_db1 := dkeys db1
  let tables_db2 := dkeys db2
  let only_sit := tables_db1.filter (fun t => decide (t ∉ tables_db2))
  let only_uat := tables_db2.filter (fun t => decide (t ∉ tables_db1))
  let common_tables := tables_db1.filter (fun t => decide (t ∈ tables_db2))
  let diffs := buildDict common_tables (fun t =>
    match dget db1 t, dget db2 t with
    | some r1, some r2 =>
      let d := compareFields r1 r2
      if tableDiffNonempty d then some d else none
    | _, _ => none)
  ⟨only_sit, only_uat, diffs⟩

/-- Fallible per-table comparison: the same computation with every dict
access `fields1[field]` / `fields2[field]` modelled as a lookup that
aborts the whole run when the key is absent, as Python's `KeyError`
would. -/
def compareFieldsE (rows1 rows2 : List Field) : Option TableDiff := do
  let fields1 := fieldsDict rows1
  let fields2 := fieldsDict rows2
  let field_names1 := dkeys fields1
  let field_names2 := dkeys fields2
  let only_sit := field_names1.filter (fun n => decide (n ∉ field_names2))
  let only_uat := field_names2.filter (fun n => decide (n ∉ field_names1))
  let common_fields := field_names1.filter (fun n => decide (n ∈ field_names2))
  let diffs ← common_fields.foldlM (fun acc n => do
    let f1 ← dget fields1 n
    let f2 ← dget fields2 n
    pure (match columnDiffOf f1 f2 with
      | some cd => dinsert acc n cd
      | none => acc)) []
  pure ⟨only_sit, only_uat, diffs⟩

/-- Fallible differ: the same computation with every dict access
(`db1[table]`, `db2[table]` and the per-field accesses) modelled as a
lookup that aborts the run when the key is absent. -/
def compare_table_structuresE (db1 db2 : Dict (List Field)) : Option DiffResult := do
  let tables_db1 := dkeys db1
  let tables_db2 := dkeys db2
  let only_sit := tables_db1.filter (fun t => decide (t ∉ tables_db2))
  let only_uat := tables_db2.filter (fun t => decide (t ∉ tables_db1))
  let common_tables := tables_db1.filter (fun t => decide (t ∈ tables_db2))
  let diffs ← common_tables.foldlM (fun acc t => do
    let r1 ← dget db1 t
    let r2 ← dget db2 t
    let d ← compareFieldsE r1 r2
    pure (if tableDiffNonempty d then dinsert acc t d else acc)) []
  pure ⟨only_sit, only_uat, diffs⟩

/-- Explicit state-passing form of the differ: the state is the pair of
input schemas, read at the start and returned at the end; the source
performs no assignment into `db1` or `db2` (it only reads them), so the
final state is the state that was read. -/
def compareSt (s : Dict (List Field) × Dict (List Field)) :
    DiffResult × (Dict (List Field) × Dict (List Field)) :=
  let db1 := s.1
  let db2 := s.2
  let tables_db1 := dkeys db1
  let tables_db2 := dkeys db2
  let only_sit := tables_db1.filter (fun t => decide (t ∉ tables_db2))
  let only_uat := tables_db2.filter (fun t => decide (t ∉ tables_db1))
  let common_tables := tables_db1.filter (fun t => decide (t ∈ tables_db2))
  let diffs := buildDict common_tables (fun t =>
    match dget db1 t, dget db2 t with
    | some r1, some r2 =>
      let d := compareFields r1 r2
      if tableDiffNonempty d then some d else none
    | _, _ => none)
  (⟨only_sit, only_uat, diffs⟩, (db1, db2))

/-- Column of the Excel export (source line 186): type difference flag,
`"是"` (yes) when the two stored rows' type strings differ. -/
def type_diff (details : ColumnDiff) : String :=
  if details.db1.ftype ≠ details.db2.ftype then "是" else "否"

/-- Column of the Excel export (source line 187): nullability
difference flag. -/
def null_diff (details : ColumnDiff) : String :=
  if details.db1.fnull ≠ details.db2.fnull then "是" else "否"

/-- Column of the Excel export (source line 188): key-role difference
flag. -/
def key_diff (details : ColumnDiff) : String :=
  if details.db1.fkey ≠ details.db2.fkey then "是" else "否"

/-- Column of the Excel export (source line 189): default-value
difference flag. -/
def default_diff (details : ColumnDiff) : String :=
  if details.db1.fdefault ≠ details.db2.fdefault then "是" else "否"

/-- Column of the Excel export (source line 190): extra-modifiers
difference flag. -/
def extra_diff (details : ColumnDiff) : String :=
  if details.db1.fextra ≠ details.db2.fextra then "是" else "否"

/-! Basic facts about the dict embedding. -/

@[simp] theorem dkeys_nil {α : Type} : dkeys ([] : Dict α) = [] := rfl

@[simp] theorem dkeys_cons {α : Type} (p : String × α) (d : Dict α) :
    dkeys (p :: d) = p.1 :: dkeys d := rfl

theorem dkeys_append {α : Type} (d1 d2 : Dict α) :
    dkeys (d1 ++ d2) = dkeys d1 ++ dkeys d2 := by
  simp [dkeys]

@[simp] theorem dget_nil {α : Type} (k : String) : dget ([] : Dict α) k = none := rfl

@[simp] theorem dget_cons {α : Type} (k' k : String) (v : α) (d : Dict α) :
    dget ((k', v) :: d) k = if k' = k then some v else dget d k := rfl

theorem dget_isSome_iff {α : Type} (d : Dict α) (k : String) :
    (dget d k).isSome ↔ k ∈ dkeys d := by
  induction d with
  | nil => simp
  | cons p rest ih =>
    obtain ⟨k', v⟩ := p
    by_cases h : k' = k
    · subst h
      simp
    · simp [h, ih, Ne.symm h]

theorem mem_dkeys_of_dget {α : Type} {d : Dict α} {k : String} {v : α}
    (h : dget d k = some v) : k ∈ dkeys d :=
  (dget_isSome_iff d k).mp (by simp [h])

theorem dget_eq_some_of_mem_dkeys {α : Type} {d : Dict α} {k : String}
    (h : k ∈ dkeys d) : ∃ v, dget d k = some v :=
  Option.isSome_iff_exists.mp ((dget_isSome_iff d k).mpr h)

theorem dget_eq_none_of_not_mem {α : Type} {d : Dict α} {k : String}
    (h : k ∉ dkeys d) : dget d k = none := by
  cases hd : dget d k with
  | none => rfl
  | some v => exact absurd (mem_dkeys_of_dget hd) h

theorem mem_of_dget {α : Type} {d : Dict α} {k : String} {v : α}
    (h : dget d k = some v) : (k, v) ∈ d := by
  induction d with
  | nil => simp at h
  | cons p rest ih =>
    obtain ⟨k', v'⟩ := p
    by_cases hk : k' = k
    · subst hk
      simp at h
      simp [h]
    · simp [hk] at h
      simp [ih h]

theorem mem_dkeys_of_mem {α : Type} {d : Dict α} {p : String × α}
    (h : p ∈ d) : p.1 ∈ dkeys d :=
  List.mem_map_of_mem Prod.fst h

theorem dkeys_overwrite {α : Type} (d : Dict α) (k : String) (v : α) :
    dkeys (d.map (fun p => if p.1 = k then (k, v) else p)) = dkeys d := by
  induction d with
  | nil => rfl
  | cons p rest ih =>
    by_cases hp : p.1 = k <;> simp [hp, ih]

theorem dget_overwrite {α : Type} (d : Dict α) (k a : String) (v : α) :
    dget (d.map (fun p => if p.1 = k then (k, v) else p)) a =
      if k = a then (if k ∈ dkeys d then some v else none) else dget d a := by
  induction d with
  | nil => by_cases h : k = a <;> simp [h]
  | cons p rest ih =>
    obtain ⟨k', v'⟩ := p
    by_cases hp : k' = k
    · subst hp
      by_cases ha : k' = a
      · subst ha
        simp [ih]
      · simp [ha, ih, Ne.symm ha]
    · by_cases ha : k' = a
      · subst ha
        simp [hp, ih, Ne.symm hp]
      · simp [hp, ha, ih, Ne.symm hp]

theorem dget_append {α : Type} (d1 d2 : Dict α) (a : String) :
    dget (d1 ++ d2) a = match dget d1 a with
      | some v => some v
      | none => dget d2 a := by
  induction d1 with
  | nil => simp
  | cons p rest ih =>
    obtain ⟨k', v'⟩ := p
    by_cases h : k' = a <;> simp [h, ih]

theorem dkeys_dinsert {α : Type} (d : Dict α) (k : String) (v : α) :
    dkeys (dinsert d k v) = if k ∈ dkeys d then dkeys d else dkeys d ++ [k] := by
  unfold dinsert
  by_cases h : k ∈ dkeys d
  · simp [h, dkeys_overwrite]
  · simp [h, dkeys_append]

theorem mem_dkeys_dinsert {α : Type} (d : Dict α) (k a : String) (v : α) :
    a ∈ dkeys (dinsert d k v) ↔ a ∈ dkeys d ∨ a = k := by
  rw [dkeys_dinsert]
  by_cases h : k ∈ dkeys d
  · simp [h]
    intro ha
    subst ha
    exact h
  · simp [h]

theorem nodup_dkeys_dinsert {α : Type} {d : Dict α} (k : String) (v : α)
    (h : (dkeys d).Nodup) : (dkeys (dinsert d k v)).Nodup := by
  rw [dkeys_dinsert]
  by_cases hk : k ∈ dkeys d
  · simp [hk, h]
  · rw [if_neg hk]
    refine List.Nodup.append h (List.nodup_singleton k) ?hdj
    intro a ha hak
    rw [List.mem_singleton] at hak
    subst hak
    exact hk ha

theorem dget_dinsert {α : Type} (d : Dict α) (k a : String) (v : α) :
    dget (dinsert d k v) a = if k = a then some v else dget d a := by
  unfold dinsert
  by_cases h : k ∈ dkeys d
  · simp [h, dget_overwrite]
  · rw [if_neg h, dget_append]
    have hd := dget_eq_none_of_not_mem h
    by_cases hka : k = a
    · subst hka
      simp [hd]
    · cases hda : dget d a <;> simp [hda, hka]

theorem dget_dinsert_self {α : Type} (d : Dict α) (k : String) (v : α) :
    dget (dinsert d k v) k = some v := by
  simp [dget_dinsert]

theorem dget_dinsert_ne {α : Type} (d : Dict α) (k a : String) (v : α)
    (h : k ≠ a) : dget (dinsert d k v) a = dget d a := by
  simp [dget_dinsert, h]

theorem mem_dinsert_elim {α : Type} {d : Dict α} {k : String} {v : α}
    {p : String × α} (h : p ∈ dinsert d k v) : p ∈ d ∨ p = (k, v) := by
  unfold dinsert at h
  by_cases hk : k ∈ dkeys d
  · rw [if_pos hk] at h
    rcases List.mem_map.mp h with ⟨q, hq, hfq⟩
    by_cases hq1 : q.1 = k
    · rw [if_pos hq1] at hfq
      exact Or.inr hfq.symm
    · rw [if_neg hq1] at hfq
      exact Or.inl (hfq ▸ hq)
  · rw [if_neg hk] at h
    rcases List.mem_append.mp h with h | h
    · exact Or.inl h
    · exact Or.inr (by simpa using h)

theorem dget_of_mem_nodup {α : Type} {d : Dict α} {k : String} {v : α}
    (hd : (dkeys d).Nodup) (hm : (k, v) ∈ d) : dget d k = some v := by
  induction d with
  | nil => simp at hm
  | cons p rest ih =>
    obtain ⟨k', v'⟩ := p
    simp at hm hd
    rcases hm with ⟨hk, hv⟩ | hm
    · simp [hk, hv]
    · have hkr : k ∈ dkeys rest := mem_dkeys_of_mem hm
      have hne : k' ≠ k := by
        intro he
        subst he
        exact hd.1 hkr
      simp [hne]
      exact ih hd.2 hm

theorem mem_dict_iff_dget {α : Type} {d : Dict α} (hd : (dkeys d).Nodup)
    (k : String) (v : α) : (k, v) ∈ d ↔ dget d k = some v :=
  ⟨fun hm => dget_of_mem_nodup hd hm, mem_of_dget⟩

/-! Characterization of the two accumulation loops. -/

theorem dget_buildDict_go {α : Type} (g : String → Option α) (l : List String) :
    ∀ (acc : Dict α) (k : String),
      dget (l.foldl (fun acc k =>
        match g k with
        | some v => dinsert acc k v
        | none => acc) acc) k =
      if k ∈ l then
        (match g k with
         | some v => some v
         | none => dget acc k)
      else dget acc k := by
  induction l with
  | nil =>
    intro acc k
    simp
  | cons x xs ih =>
    intro acc k
    rw [List.foldl_cons, ih]
    by_cases hxk : x = k
    · subst hxk
      cases hg : g x with
      | none => simp [hg]
      | some v => simp [hg, dget_dinsert]
    · cases hg : g x with
      | none => simp [hg, hxk, Ne.symm hxk]
      | some v => simp [hg, hxk, Ne.symm hxk, dget_dinsert]

theorem dget_buildDict {α : Type} (l : List String) (g : String → Option α)
    (k : String) : dget (buildDict l g) k = if k ∈ l then g k else none := by
  unfold buildDict
  rw [dget_buildDict_go]
  by_cases hk : k ∈ l <;> cases hg : g k <;> simp [hk, hg]

theorem nodup_dkeys_buildDict {α : Type} (l : List String) (g : String → Option α) :
    (dkeys (buildDict l g)).Nodup := by
  unfold buildDict
  have h : ∀ (acc : Dict α), (dkeys acc).Nodup →
      (dkeys (l.foldl (fun acc k =>
        match g k with
        | some v => dinsert acc k v
        | none => acc) acc)).Nodup := by
    induction l with
    | nil => intro acc hacc; simpa using hacc
    | cons x xs ih =>
      intro acc hacc
      rw [List.foldl_cons]
      cases hg : g x with
      | none => simp [hg]; exact ih acc hacc
      | some v => simp [hg]; exact ih _ (nodup_dkeys_dinsert x v hacc)
  simpa using h [] (by simp)

theorem mem_buildDict {α : Type} (l : List String) (g : String → Option α)
    (k : String) (v : α) : (k, v) ∈ buildDict l g ↔ k ∈ l ∧ g k = some v := by
  rw [mem_dict_iff_dget (nodup_dkeys_buildDict l g), dget_buildDict]
  by_cases hk : k ∈ l <;> simp [hk]

theorem mem_dkeys_buildDict {α : Type} (l : List String) (g : String → Option α)
    (k : String) : k ∈ dkeys (buildDict l g) ↔ k ∈ l ∧ (g k).isSome := by
  rw [← dget_isSome_iff, dget_buildDict]
  by_cases hk : k ∈ l <;> simp [hk]

theorem mem_dkeys_fieldsDict (rows : List Field) (k : String) :
    k ∈ dkeys (fieldsDict rows) ↔ k ∈ rows.map Field.fname := by
  unfold fieldsDict
  have h : ∀ (acc : Dict Field),
      (k ∈ dkeys (rows.foldl (fun d f => dinsert d f.fname f) acc) ↔
        k ∈ dkeys acc ∨ k ∈ rows.map Field.fname) := by
    induction rows with
    | nil => intro acc; simp
    | cons f fs ih =>
      intro acc
      rw [List.foldl_cons, ih]
      rw [mem_dkeys_dinsert]
      simp
      tauto
  rw [h []]
  simp

theorem nodup_dkeys_fieldsDict (rows : List Field) :
    (dkeys (fieldsDict rows)).Nodup := by
  unfold fieldsDict
  have h : ∀ (acc : Dict Field), (dkeys acc).Nodup →
      (dkeys (rows.foldl (fun d f => dinsert d f.fname f) acc)).Nodup := by
    induction rows with
    | nil => intro acc hacc; simpa using hacc
    | cons f fs ih =>
      intro acc hacc
      rw [List.foldl_cons]
      exact ih _ (nodup_dkeys_dinsert f.fname f hacc)
  simpa using h [] (by simp)

theorem fname_of_mem_fieldsDict_go (rows : List Field) :
    ∀ (acc : Dict Field), (∀ q ∈ acc, (q : String × Field).2.fname = q.1) →
      ∀ q ∈ rows.foldl (fun d f => dinsert d f.fname f) acc,
        (q : String × Field).2.fname = q.1 := by
  induction rows with
  | nil =>
    intro acc hacc
    simpa using hacc
  | cons f fs ih =>
    intro acc hacc
    rw [List.foldl_cons]
    refine ih (dinsert acc f.fname f) ?hstep
    intro q hq
    rcases mem_dinsert_elim hq with hq | hq
    · exact hacc q hq
    · subst hq
      rfl

theorem fname_of_mem_fieldsDict {rows : List Field} {p : String × Field}
    (h : p ∈ fieldsDict rows) : p.2.fname = p.1 :=
  fname_of_mem_fieldsDict_go rows [] (by simp) p h

theorem fname_of_dget_fieldsDict {rows : List Field} {k : String} {f : Field}
    (h : dget (fieldsDict rows) k = some f) : f.fname = k :=
  fname_of_mem_fieldsDict (mem_of_dget h)
/-! Characterization of the per-table comparison. -/

theorem isEmpty_eq_true_iff {α : Type} (l : List α) : l.isEmpty = true ↔ l = [] := by
  cases l <;> simp

theorem mem_only_sit_compareFields (r1 r2 : List Field) (n : String) :
    n ∈ (compareFields r1 r2).only_in_sit ↔
      n ∈ r1.map Field.fname ∧ n ∉ r2.map Field.fname := by
  unfold compareFields
  simp only [List.mem_filter, decide_eq_true_eq, mem_dkeys_fieldsDict]

theorem mem_only_uat_compareFields (r1 r2 : List Field) (n : String) :
    n ∈ (compareFields r1 r2).only_in_uat ↔
      n ∈ r2.map Field.fname ∧ n ∉ r1.map Field.fname := by
  unfold compareFields
  simp only [List.mem_filter, decide_eq_true_eq, mem_dkeys_fieldsDict]

theorem mem_different_fields_compareFields (r1 r2 : List Field) (n : String)
    (cd : ColumnDiff) :
    (n, cd) ∈ (compareFields r1 r2).different_fields ↔
      ∃ f1 f2, dget (fieldsDict r1) n = some f1 ∧ dget (fieldsDict r2) n = some f2 ∧
        columnDiffOf f1 f2 = some cd := by
  unfold compareFields
  rw [mem_buildDict]
  constructor
  · rintro ⟨hmem, hg⟩
    cases h1 : dget (fieldsDict r1) n with
    | none =>
      rw [h1] at hg
      simp at hg
    | some f1 =>
      cases h2 : dget (fieldsDict r2) n with
      | none =>
        rw [h1, h2] at hg
        simp at hg
      | some f2 =>
        rw [h1, h2] at hg
        exact ⟨f1, f2, rfl, rfl, hg⟩
  · rintro ⟨f1, f2, h1, h2, hcd⟩
    refine ⟨?hmem, ?hg⟩
    · rw [List.mem_filter]
      refine ⟨mem_dkeys_of_dget h1, ?hdec⟩
      simp [mem_dkeys_of_dget h2]
    · rw [h1, h2]
      exact hcd

theorem columnDiffOf_isSome (f1 f2 : Field) :
    (columnDiffOf f1 f2).isSome = true ↔ f1 ≠ f2 := by
  unfold columnDiffOf
  by_cases h : f1 = f2 <;> simp [h]

theorem mem_dkeys_different_fields (r1 r2 : List Field) (n : String) :
    n ∈ dkeys (compareFields r1 r2).different_fields ↔
      ∃ f1 f2, dget (fieldsDict r1) n = some f1 ∧ dget (fieldsDict r2) n = some f2 ∧
        f1 ≠ f2 := by
  rw [← dget_isSome_iff]
  constructor
  · intro h
    obtain ⟨cd, hcd⟩ := Option.isSome_iff_exists.mp h
    have hm := mem_of_dget hcd
    rw [mem_different_fields_compareFields] at hm
    obtain ⟨f1, f2, h1, h2, hc⟩ := hm
    refine ⟨f1, f2, h1, h2, ?hne⟩
    intro he
    rw [he] at hc
    unfold columnDiffOf at hc
    simp at hc
  · rintro ⟨f1, f2, h1, h2, hne⟩
    obtain ⟨cd, hcd⟩ := Option.isSome_iff_exists.mp ((columnDiffOf_isSome f1 f2).mpr hne)
    have : (n, cd) ∈ (compareFields r1 r2).different_fields := by
      rw [mem_different_fields_compareFields]
      exact ⟨f1, f2, h1, h2, hcd⟩
    rw [dget_of_mem_nodup ?hnd this]
    · simp
    · exact nodup_dkeys_buildDict _ _

/-! Characterization of the table-level comparison. -/

theorem mem_only_sit_compare (db1 db2 : Dict (List Field)) (t : String) :
    t ∈ (compare_table_structures db1 db2).only_in_sit ↔
      t ∈ dkeys db1 ∧ t ∉ dkeys db2 := by
  unfold compare_table_structures
  simp only [List.mem_filter, decide_eq_true_eq]

theorem mem_only_uat_compare (db1 db2 : Dict (List Field)) (t : String) :
    t ∈ (compare_table_structures db1 db2).only_in_uat ↔
      t ∈ dkeys db2 ∧ t ∉ dkeys db1 := by
  unfold compare_table_structures
  simp only [List.mem_filter, decide_eq_true_eq]

theorem mem_different_tables_compare (db1 db2 : Dict (List Field)) (t : String)
    (td : TableDiff) :
    (t, td) ∈ (compare_table_structures db1 db2).different_tables ↔
      ∃ r1 r2, dget db1 t = some r1 ∧ dget db2 t = some r2 ∧
        tableDiffNonempty (compareFields r1 r2) = true ∧ td = compareFields r1 r2 := by
  unfold compare_table_structures
  rw [mem_buildDict]
  constructor
  · rintro ⟨hmem, hg⟩
    cases h1 : dget db1 t with
    | none =>
      rw [h1] at hg
      simp at hg
    | some r1 =>
      cases h2 : dget db2 t with
      | none =>
        rw [h1, h2] at hg
        simp at hg
      | some r2 =>
        rw [h1, h2] at hg
        simp only [] at hg
        by_cases hne : tableDiffNonempty (compareFields r1 r2)
        · rw [if_pos hne] at hg
          exact ⟨r1, r2, rfl, rfl, hne, (Option.some_inj.mp hg).symm⟩
        · rw [if_neg hne] at hg
          simp at hg
  · rintro ⟨r1, r2, h1, h2, hne, htd⟩
    refine ⟨?hmem, ?hg⟩
    · rw [List.mem_filter]
      refine ⟨mem_dkeys_of_dget h1, ?hdec⟩
      simp [mem_dkeys_of_dget h2]
    · rw [h1, h2]
      simp only []
      rw [if_pos hne, htd]

theorem mem_dkeys_different_tables (db1 db2 : Dict (List Field)) (t : String) :
    t ∈ dkeys (compare_table_structures db1 db2).different_tables ↔
      ∃ r1 r2, dget db1 t = some r1 ∧ dget db2 t = some r2 ∧
        tableDiffNonempty (compareFields r1 r2) = true := by
  rw [← dget_isSome_iff]
  constructor
  · intro h
    obtain ⟨td, htd⟩ := Option.isSome_iff_exists.mp h
    have hm := mem_of_dget htd
    rw [mem_different_tables_compare] at hm
    obtain ⟨r1, r2, h1, h2, hne, _⟩ := hm
    exact ⟨r1, r2, h1, h2, hne⟩
  · rintro ⟨r1, r2, h1, h2, hne⟩
    have : (t, compareFields r1 r2) ∈
        (compare_table_structures db1 db2).different_tables := by
      rw [mem_different_tables_compare]
      exact ⟨r1, r2, h1, h2, hne, rfl⟩
    rw [dget_of_mem_nodup ?hnd this]
    · simp
    · unfold compare_table_structures
      exact nodup_dkeys_buildDict _ _
/-! Comparing a schema with itself. -/

theorem buildDict_eq_nil {α : Type} (l : List String) (g : String → Option α)
    (h : ∀ k ∈ l, g k = none) : buildDict l g = [] := by
  unfold buildDict
  have hgen : ∀ (l' : List String), (∀ k ∈ l', g k = none) → ∀ (acc : Dict α),
      (l'.foldl (fun acc k =>
        match g k with
        | some v => dinsert acc k v
        | none => acc) acc) = acc := by
    intro l'
    induction l' with
    | nil =>
      intro _ acc
      simp
    | cons x xs ih =>
      intro hx acc
      rw [List.foldl_cons]
      have hgx : g x = none := hx x (by simp)
      rw [hgx]
      exact ih (fun k hk => hx k (by simp [hk])) acc
  exact hgen l h []

theorem compareFields_self (rows : List Field) :
    compareFields rows rows = ⟨[], [], []⟩ := by
  unfold compareFields
  simp only [TableDiff.mk.injEq]
  refine ⟨?hsit, ?huat, ?hdf⟩
  case hsit =>
    rw [List.eq_nil_iff_forall_not_mem]
    intro n hn
    rw [List.mem_filter] at hn
    rcases hn with ⟨h1, h2⟩
    rw [decide_eq_true_eq] at h2
    exact h2 h1
  case huat =>
    rw [List.eq_nil_iff_forall_not_mem]
    intro n hn
    rw [List.mem_filter] at hn
    rcases hn with ⟨h1, h2⟩
    rw [decide_eq_true_eq] at h2
    exact h2 h1
  case hdf =>
    refine buildDict_eq_nil _ _ ?hg
    intro k _
    cases hk : dget (fieldsDict rows) k with
    | none => rfl
    | some f => simp [columnDiffOf]

theorem compare_table_structures_self (s : Dict (List Field)) :
    compare_table_structures s s = ⟨[], [], []⟩ := by
  unfold compare_table_structures
  simp only [DiffResult.mk.injEq]
  refine ⟨?hsit, ?huat, ?hdf⟩
  case hsit =>
    rw [List.eq_nil_iff_forall_not_mem]
    intro n hn
    rw [List.mem_filter] at hn
    rcases hn with ⟨h1, h2⟩
    rw [decide_eq_true_eq] at h2
    exact h2 h1
  case huat =>
    rw [List.eq_nil_iff_forall_not_mem]
    intro n hn
    rw [List.mem_filter] at hn
    rcases hn with ⟨h1, h2⟩
    rw [decide_eq_true_eq] at h2
    exact h2 h1
  case hdf =>
    refine buildDict_eq_nil _ _ ?hg
    intro k _
    cases hk : dget s k with
    | none => rfl
    | some r => simp [compareFields_self, tableDiffNonempty]

/-! Swapping the two inputs. -/

theorem only_sit_compareFields_swap (r1 r2 : List Field) :
    (compareFields r1 r2).only_in_sit = (compareFields r2 r1).only_in_uat := rfl

theorem only_uat_compareFields_swap (r1 r2 : List Field) :
    (compareFields r1 r2).only_in_uat = (compareFields r2 r1).only_in_sit := rfl

theorem columnDiffOf_swap (f1 f2 : Field) :
    columnDiffOf f2 f1 =
      (columnDiffOf f1 f2).map (fun cd => ⟨cd.db2, cd.db1, cd.default_value_diff⟩) := by
  unfold columnDiffOf
  by_cases h : f1 = f2
  · simp [h]
  · rw [if_pos h, if_pos (fun he => h he.symm)]
    have hflag : decide (f2.fdefault ≠ f1.fdefault) = decide (f1.fdefault ≠ f2.fdefault) := by
      rw [decide_eq_decide]
      exact ne_comm
    simp [hflag]

theorem mem_different_fields_swap {r1 r2 : List Field} {c : String} {cd : ColumnDiff}
    (h : (c, cd) ∈ (compareFields r1 r2).different_fields) :
    (c, (⟨cd.db2, cd.db1, cd.default_value_diff⟩ : ColumnDiff)) ∈
      (compareFields r2 r1).different_fields := by
  rw [mem_different_fields_compareFields] at h
  obtain ⟨f1, f2, h1, h2, hcd⟩ := h
  rw [mem_different_fields_compareFields]
  refine ⟨f2, f1, h2, h1, ?hswap⟩
  rw [columnDiffOf_swap, hcd]
  rfl

theorem different_fields_nil_swap {r1 r2 : List Field}
    (h : (compareFields r1 r2).different_fields = []) :
    (compareFields r2 r1).different_fields = [] := by
  rw [List.eq_nil_iff_forall_not_mem] at h ⊢
  intro p hp
  obtain ⟨c, cd⟩ := p
  exact h _ (mem_different_fields_swap hp)

theorem isEmpty_eq_false_iff {α : Type} (l : List α) : l.isEmpty = false ↔ l ≠ [] := by
  cases l <;> simp

theorem tableDiffNonempty_swap_eq (r1 r2 : List Field) :
    tableDiffNonempty (compareFields r2 r1) = tableDiffNonempty (compareFields r1 r2) := by
  have hsit : (compareFields r2 r1).only_in_sit = (compareFields r1 r2).only_in_uat :=
    only_sit_compareFields_swap r2 r1
  have huat : (compareFields r2 r1).only_in_uat = (compareFields r1 r2).only_in_sit :=
    only_uat_compareFields_swap r2 r1
  have hdf : (compareFields r2 r1).different_fields.isEmpty =
      (compareFields r1 r2).different_fields.isEmpty := by
    by_cases h12 : (compareFields r1 r2).different_fields = []
    · have h21 := different_fields_nil_swap h12
      rw [h12, h21]
    · have h21 : (compareFields r2 r1).different_fields ≠ [] :=
        fun hnil => h12 (different_fields_nil_swap hnil)
      rw [(isEmpty_eq_false_iff _).mpr h21, (isEmpty_eq_false_iff _).mpr h12]
  unfold tableDiffNonempty
  rw [hsit, huat, hdf]
  cases (compareFields r1 r2).only_in_sit.isEmpty <;>
    cases (compareFields r1 r2).only_in_uat.isEmpty <;>
      cases (compareFields r1 r2).different_fields.isEmpty <;> rfl

/-! The fallible versions agree with the total ones. -/

theorem foldlM_option_eq_foldl {σ β : Type} (f : β → σ → Option β) (g : β → σ → β)
    (l : List σ) (h : ∀ b a, a ∈ l → f b a = some (g b a)) :
    ∀ b, l.foldlM f b = some (l.foldl g b) := by
  induction l with
  | nil =>
    intro b
    simp
  | cons x xs ih =>
    intro b
    rw [List.foldl_cons, List.foldlM_cons, h b x (by simp)]
    simp only [Option.bind_eq_bind, Option.some_bind]
    exact ih (fun b a ha => h b a (by simp [ha])) (g b x)

theorem compareFieldsE_eq (r1 r2 : List Field) :
    compareFieldsE r1 r2 = some (compareFields r1 r2) := by
  simp only [compareFieldsE, compareFields, buildDict]
  rw [foldlM_option_eq_foldl _
    (fun acc n =>
      match (match dget (fieldsDict r1) n, dget (fieldsDict r2) n with
             | some f1, some f2 => columnDiffOf f1 f2
             | _, _ => none) with
      | some v => dinsert acc n v
      | none => acc) _ ?hstep]
  case hstep =>
    intro b n hn
    rw [List.mem_filter] at hn
    rcases hn with ⟨hn1, hn2⟩
    rw [decide_eq_true_eq] at hn2
    obtain ⟨f1, h1⟩ := dget_eq_some_of_mem_dkeys hn1
    obtain ⟨f2, h2⟩ := dget_eq_some_of_mem_dkeys hn2
    simp [h1, h2]
  simp
  refine List.foldl_ext _ _ [] ?hext
  intro a b hb
  cases h1 : dget (fieldsDict r1) b <;> cases h2 : dget (fieldsDict r2) b <;>
    simp [h1, h2]
  rename_i f1 f2
  cases columnDiffOf f1 f2 <;> rfl

theorem compare_table_structuresE_eq (db1 db2 : Dict (List Field)) :
    compare_table_structuresE db1 db2 = some (compare_table_structures db1 db2) := by
  simp only [compare_table_structuresE, compare_table_structures, buildDict]
  rw [foldlM_option_eq_foldl _
    (fun acc t =>
      match (match dget db1 t, dget db2 t with
             | some r1, some r2 =>
               let d := compareFields r1 r2
               if tableDiffNonempty d then some d else none
             | _, _ => none) with
      | some v => dinsert acc t v
      | none => acc) _ ?hstep]
  case hstep =>
    intro b t ht
    rw [List.mem_filter] at ht
    rcases ht with ⟨ht1, ht2⟩
    rw [decide_eq_true_eq] at ht2
    obtain ⟨r1, h1⟩ := dget_eq_some_of_mem_dkeys ht1
    obtain ⟨r2, h2⟩ := dget_eq_some_of_mem_dkeys ht2
    by_cases hne : tableDiffNonempty (compareFields r1 r2) <;>
      simp [h1, h2, compareFieldsE_eq, hne]
  simp
  refine List.foldl_ext _ _ [] ?hext
  intro a b hb
  cases h1 : dget db1 b <;> cases h2 : dget db2 b <;> simp [h1, h2]
  rename_i r1 r2
  by_cases hne : tableDiffNonempty (compareFields r1 r2) = true <;> simp [hne]

/-! Support lemmas for the claim theorems. -/

theorem field_ne_iff {f1 f2 : Field} (hname : f1.fname = f2.fname) :
    f1 ≠ f2 ↔ (f1.ftype ≠ f2.ftype ∨ f1.fnull ≠ f2.fnull ∨ f1.fkey ≠ f2.fkey ∨
      f1.fdefault ≠ f2.fdefault ∨ f1.fextra ≠ f2.fextra) := by
  cases f1
  cases f2
  simp at hname
  simp [Field.mk.injEq, hname]
  tauto

theorem tableDiffNonempty_eq_true_iff (d : TableDiff) :
    tableDiffNonempty d = true ↔
      (d.only_in_sit ≠ [] ∨ d.only_in_uat ≠ [] ∨ d.different_fields ≠ []) := by
  unfold tableDiffNonempty
  simp only [Bool.or_eq_true, Bool.not_eq_true', isEmpty_eq_false_iff]
  tauto

theorem tableDiffNonempty_of_df_ne_nil {d : TableDiff} (h : d.different_fields ≠ []) :
    tableDiffNonempty d = true := by
  rw [tableDiffNonempty_eq_true_iff]
  exact Or.inr (Or.inr h)

theorem flag_eq_yes_iff (b : Prop) [Decidable b] :
    (if b then "是" else "否") = "是" ↔ b := by
  by_cases h : b <;> simp [h]

/-! The claim theorems. -/

/-- C2: for every pair of input schemas, the result's only-in-left table set
is exactly the set difference of the left table-name set minus the right one,
and the only-in-right table set is the opposite difference. -/
theorem only_in_table_sets_are_set_differences (db1 db2 : Dict (List Field))
    (t : String) :
    (t ∈ (compare_table_structures db1 db2).only_in_sit ↔
      t ∈ dkeys db1 ∧ t ∉ dkeys db2) ∧
    (t ∈ (compare_table_structures db1 db2).only_in_uat ↔
      t ∈ dkeys db2 ∧ t ∉ dkeys db1) :=
  ⟨mem_only_sit_compare db1 db2 t, mem_only_uat_compare db1 db2 t⟩

/-- C7: comparing any schema with an identical copy of itself yields the
empty diff result: both only-in-one-side table lists empty and the
table-diff map empty. -/
theorem compare_with_self_is_empty (s : Dict (List Field)) :
    compare_table_structures s s = ⟨[], [], []⟩ :=
  compare_table_structures_self s

/-- C8: on well-formed schemas (every row carrying all six fields, as the
`Field` record does) the differ runs to completion: the fallible version,
in which every dict lookup may abort as a Python `KeyError` would, always
succeeds and returns the total differ's result. -/
theorem compare_total_on_well_formed (db1 db2 : Dict (List Field)) :
    (compare_table_structuresE db1 db2).isSome = true ∧
    compare_table_structuresE db1 db2 = some (compare_table_structures db1 db2) := by
  refine ⟨?hs, compare_table_structuresE_eq db1 db2⟩
  rw [compare_table_structuresE_eq db1 db2]
  rfl

/-- C9: the differ is pure: in the explicit state-passing embedding the pair
of input schemas comes back unchanged, and the returned diff is a function
of the input values alone, so identical inputs give identical results. -/
theorem compare_pure_and_deterministic
    (s : Dict (List Field) × Dict (List Field)) :
    (compareSt s).2 = s ∧ (compareSt s).1 = compare_table_structures s.1 s.2 :=
  ⟨rfl, rfl⟩

/-- C6: comparing (A, B) and (B, A) mirror each other: the only-in-left and
only-in-right table lists swap, each shared table's diff appears in both
results with its per-table column lists swapped, and each differing column's
two descriptor slots swapped. -/
theorem compare_swap_mirror (a b : Dict (List Field)) :
    (compare_table_structures a b).only_in_sit =
      (compare_table_structures b a).only_in_uat ∧
    (compare_table_structures a b).only_in_uat =
      (compare_table_structures b a).only_in_sit ∧
    (∀ t td, (t, td) ∈ (compare_table_structures a b).different_tables →
      ∃ td', (t, td') ∈ (compare_table_structures b a).different_tables ∧
        td.only_in_sit = td'.only_in_uat ∧ td.only_in_uat = td'.only_in_sit ∧
        (∀ c cd, (c, cd) ∈ td.different_fields →
          ∃ cd', (c, cd') ∈ td'.different_fields ∧
            cd'.db1 = cd.db2 ∧ cd'.db2 = cd.db1 ∧
            cd'.default_value_diff = cd.default_value_diff)) := by
  refine ⟨rfl, rfl, ?htables⟩
  intro t td hmem
  rw [mem_different_tables_compare] at hmem
  obtain ⟨r1, r2, h1, h2, hne, htd⟩ := hmem
  subst htd
  refine ⟨compareFields r2 r1, ?hmem', ?hsit, ?huat, ?hcols⟩
  case hmem' =>
    rw [mem_different_tables_compare]
    refine ⟨r2, r1, h2, h1, ?hne', rfl⟩
    rw [tableDiffNonempty_swap_eq]
    exact hne
  case hsit => exact only_sit_compareFields_swap r1 r2
  case huat => exact only_uat_compareFields_swap r1 r2
  case hcols =>
    intro c cd hc
    exact ⟨⟨cd.db2, cd.db1, cd.default_value_diff⟩,
      mem_different_fields_swap hc, rfl, rfl, rfl⟩

/-- C10: the diff result is internally disjoint: the two only-in-one-side
table lists never share a name, every key of the table-diff map names a
table present in both schemas and in neither only-in list, and inside each
table diff the two only-in-one-side column lists and the differing-column
keys are likewise pairwise disjoint, every differing-column key naming a
column present in that table on both sides. -/
theorem diff_result_disjoint_invariants (db1 db2 : Dict (List Field)) :
    (∀ t, ¬(t ∈ (compare_table_structures db1 db2).only_in_sit ∧
            t ∈ (compare_table_structures db1 db2).only_in_uat)) ∧
    (∀ t, t ∈ dkeys (compare_table_structures db1 db2).different_tables →
      t ∈ dkeys db1 ∧ t ∈ dkeys db2 ∧
      t ∉ (compare_table_structures db1 db2).only_in_sit ∧
      t ∉ (compare_table_structures db1 db2).only_in_uat) ∧
    (∀ t td, (t, td) ∈ (compare_table_structures db1 db2).different_tables →
      (∀ c, ¬(c ∈ td.only_in_sit ∧ c ∈ td.only_in_uat)) ∧
      (∀ c, c ∈ dkeys td.different_fields →
        ∃ r1 r2, dget db1 t = some r1 ∧ dget db2 t = some r2 ∧
          c ∈ r1.map Field.fname ∧ c ∈ r2.map Field.fname ∧
          c ∉ td.only_in_sit ∧ c ∉ td.only_in_uat)) := by
  refine ⟨?htab, ?hkeys, ?hinner⟩
  case htab =>
    rintro t ⟨hs, hu⟩
    rw [mem_only_sit_compare] at hs
    rw [mem_only_uat_compare] at hu
    exact hs.2 hu.1
  case hkeys =>
    intro t ht
    rw [mem_dkeys_different_tables] at ht
    obtain ⟨r1, r2, h1, h2, _⟩ := ht
    refine ⟨mem_dkeys_of_dget h1, mem_dkeys_of_dget h2, ?_, ?_⟩
    · rw [mem_only_sit_compare]
      rintro ⟨_, hn2⟩
      exact hn2 (mem_dkeys_of_dget h2)
    · rw [mem_only_uat_compare]
      rintro ⟨_, hn1⟩
      exact hn1 (mem_dkeys_of_dget h1)
  case hinner =>
    intro t td hmem
    rw [mem_different_tables_compare] at hmem
    obtain ⟨r1, r2, h1, h2, hne, htd⟩ := hmem
    subst htd
    refine ⟨?hcoldisj, ?hcolkeys⟩
    case hcoldisj =>
      rintro c ⟨hs, hu⟩
      rw [mem_only_sit_compareFields] at hs
      rw [mem_only_uat_compareFields] at hu
      exact hs.2 hu.1
    case hcolkeys =>
      intro c hc
      rw [mem_dkeys_different_fields] at hc
      obtain ⟨f1, f2, hf1, hf2, _⟩ := hc
      have hc1 : c ∈ r1.map Field.fname :=
        (mem_dkeys_fieldsDict r1 c).mp (mem_dkeys_of_dget hf1)
      have hc2 : c ∈ r2.map Field.fname :=
        (mem_dkeys_fieldsDict r2 c).mp (mem_dkeys_of_dget hf2)
      refine ⟨r1, r2, h1, h2, hc1, hc2, ?_, ?_⟩
      · rw [mem_only_sit_compareFields]
        rintro ⟨_, hn2⟩
        exact hn2 hc2
      · rw [mem_only_uat_compareFields]
        rintro ⟨_, hn1⟩
        exact hn1 hc1

/-- C1: for every table present in both schemas and every column name present
in that table on both sides, the column appears in that table's
differing-columns map iff at least one of the five attributes (type,
nullability, key role, default value, extra) of its two descriptors differs,
each attribute compared by exact equality with no normalization of
whitespace, case or type-string formatting. -/
theorem differing_column_iff_attribute_differs
    (db1 db2 : Dict (List Field)) (t : String) (r1 r2 : List Field)
    (hr1 : dget db1 t = some r1) (hr2 : dget db2 t = some r2)
    (c : String) (f1 f2 : Field)
    (hf1 : dget (fieldsDict r1) c = some f1)
    (hf2 : dget (fieldsDict r2) c = some f2) :
    (∃ td, (t, td) ∈ (compare_table_structures db1 db2).different_tables ∧
      c ∈ dkeys td.different_fields) ↔
    (f1.ftype ≠ f2.ftype ∨ f1.fnull ≠ f2.fnull ∨ f1.fkey ≠ f2.fkey ∨
      f1.fdefault ≠ f2.fdefault ∨ f1.fextra ≠ f2.fextra) := by
  have hn1 : f1.fname = c := fname_of_dget_fieldsDict hf1
  have hn2 : f2.fname = c := fname_of_dget_fieldsDict hf2
  have hname : f1.fname = f2.fname := by rw [hn1, hn2]
  rw [← field_ne_iff hname]
  constructor
  · rintro ⟨td, hmem, hc⟩
    rw [mem_different_tables_compare] at hmem
    obtain ⟨r1', r2', h1', h2', hne, htd⟩ := hmem
    rw [hr1] at h1'
    rw [hr2] at h2'
    obtain rfl := Option.some_inj.mp h1'
    obtain rfl := Option.some_inj.mp h2'
    subst htd
    rw [mem_dkeys_different_fields] at hc
    obtain ⟨g1, g2, hg1, hg2, hgne⟩ := hc
    rw [hf1] at hg1
    rw [hf2] at hg2
    obtain rfl := Option.some_inj.mp hg1
    obtain rfl := Option.some_inj.mp hg2
    exact hgne
  · intro hne12
    have hc : c ∈ dkeys (compareFields r1 r2).different_fields := by
      rw [mem_dkeys_different_fields]
      exact ⟨f1, f2, hf1, hf2, hne12⟩
    have hnonempty : tableDiffNonempty (compareFields r1 r2) = true := by
      apply tableDiffNonempty_of_df_ne_nil
      intro hnil
      rw [hnil] at hc
      simp at hc
    refine ⟨compareFields r1 r2, ?hmem, hc⟩
    rw [mem_different_tables_compare]
    exact ⟨r1, r2, hr1, hr2, hnonempty, rfl⟩

def w1f1 : Field := ⟨"v", "varchar(10)", "YES", "", none, ""⟩

def w1f2 : Field := ⟨"v", "VARCHAR(10)", "YES", "", none, ""⟩

def w1db1 : Dict (List Field) := [("users", [w1f1])]

def w1db2 : Dict (List Field) := [("users", [w1f2])]

/-- Witness for C1 at a concrete input: a type string differing only in
letter case registers as a difference. -/
theorem differing_column_iff_attribute_differs_witness :
    (dget w1db1 "users" = some [w1f1] ∧ dget w1db2 "users" = some [w1f2] ∧
      dget (fieldsDict [w1f1]) "v" = some w1f1 ∧
      dget (fieldsDict [w1f2]) "v" = some w1f2) ∧
    ((∃ td, ("users", td) ∈ (compare_table_structures w1db1 w1db2).different_tables ∧
        "v" ∈ dkeys td.different_fields) ↔
      (w1f1.ftype ≠ w1f2.ftype ∨ w1f1.fnull ≠ w1f2.fnull ∨ w1f1.fkey ≠ w1f2.fkey ∨
        w1f1.fdefault ≠ w1f2.fdefault ∨ w1f1.fextra ≠ w1f2.fextra)) :=
  ⟨⟨by decide, by decide, by decide, by decide⟩,
    differing_column_iff_attribute_differs w1db1 w1db2 "users" [w1f1] [w1f2]
      (by decide) (by decide) "v" w1f1 w1f2 (by decide) (by decide)⟩

/-- C3: a table present in both schemas appears as a key of the result's
table-diff map iff at least one of the three parts of its per-table diff
(columns only in left, columns only in right, differing-columns map) is
non-empty; a shared table with identical columns on both sides is absent. -/
theorem shared_table_in_diff_map_iff_parts_nonempty
    (db1 db2 : Dict (List Field)) (t : String) (r1 r2 : List Field)
    (hr1 : dget db1 t = some r1) (hr2 : dget db2 t = some r2) :
    (t ∈ dkeys (compare_table_structures db1 db2).different_tables ↔
      ((compareFields r1 r2).only_in_sit ≠ [] ∨
        (compareFields r1 r2).only_in_uat ≠ [] ∨
        (compareFields r1 r2).different_fields ≠ [])) ∧
    (r1 = r2 → t ∉ dkeys (compare_table_structures db1 db2).different_tables) := by
  have hmain : t ∈ dkeys (compare_table_structures db1 db2).different_tables ↔
      tableDiffNonempty (compareFields r1 r2) = true := by
    rw [mem_dkeys_different_tables]
    constructor
    · rintro ⟨r1', r2', h1', h2', hne⟩
      rw [hr1] at h1'
      rw [hr2] at h2'
      obtain rfl := Option.some_inj.mp h1'
      obtain rfl := Option.some_inj.mp h2'
      exact hne
    · intro hne
      exact ⟨r1, r2, hr1, hr2, hne⟩
  constructor
  · rw [hmain, tableDiffNonempty_eq_true_iff]
  · intro he
    rw [hmain]
    subst he
    rw [compareFields_self]
    simp [tableDiffNonempty]

def w3fa : Field := ⟨"id", "int(11)", "NO", "PRI", none, "auto_increment"⟩

def w3fb : Field := ⟨"id", "bigint(20)", "NO", "PRI", none, "auto_increment"⟩

def w3db1 : Dict (List Field) := [("users", [w3fa]), ("same", [w3fa])]

def w3db2 : Dict (List Field) := [("users", [w3fb]), ("same", [w3fa])]

/-- Witness for C3 at a concrete input: a shared table with a type change is
present in the map, and the identical shared table is absent. -/
theorem shared_table_in_diff_map_iff_parts_nonempty_witness :
    (dget w3db1 "same" = some [w3fa] ∧ dget w3db2 "same" = some [w3fa]) ∧
    (("same" ∈ dkeys (compare_table_structures w3db1 w3db2).different_tables ↔
      ((compareFields [w3fa] [w3fa]).only_in_sit ≠ [] ∨
        (compareFields [w3fa] [w3fa]).only_in_uat ≠ [] ∨
        (compareFields [w3fa] [w3fa]).different_fields ≠ [])) ∧
      ([w3fa] = [w3fa] →
        "same" ∉ dkeys (compare_table_structures w3db1 w3db2).different_tables)) :=
  ⟨⟨by decide, by decide⟩,
    shared_table_in_diff_map_iff_parts_nonempty w3db1 w3db2 "same" [w3fa] [w3fa]
      (by decide) (by decide)⟩

/-- C5: a shared column whose left descriptor has no default value while the
right descriptor has an explicit empty-string default is recorded as a
differing column with its stored default-value flag true. -/
theorem default_none_vs_empty_string_registers_diff
    (db1 db2 : Dict (List Field)) (t : String) (r1 r2 : List Field)
    (hr1 : dget db1 t = some r1) (hr2 : dget db2 t = some r2)
    (c : String) (f1 f2 : Field)
    (hf1 : dget (fieldsDict r1) c = some f1)
    (hf2 : dget (fieldsDict r2) c = some f2)
    (hd1 : f1.fdefault = none) (hd2 : f2.fdefault = some "") :
    ∃ td, (t, td) ∈ (compare_table_structures db1 db2).different_tables ∧
      ∃ cd, (c, cd) ∈ td.different_fields ∧ cd.default_value_diff = true := by
  have hne : f1 ≠ f2 := by
    intro he
    rw [he, hd2] at hd1
    exact Option.noConfusion hd1
  have hflag : decide (f1.fdefault ≠ f2.fdefault) = true := by
    simp [hd1, hd2]
  have hcd : columnDiffOf f1 f2 = some ⟨f1, f2, true⟩ := by
    unfold columnDiffOf
    rw [if_pos hne, hflag]
  have hmemf : (c, (⟨f1, f2, true⟩ : ColumnDiff)) ∈
      (compareFields r1 r2).different_fields := by
    rw [mem_different_fields_compareFields]
    exact ⟨f1, f2, hf1, hf2, hcd⟩
  have hnonempty : tableDiffNonempty (compareFields r1 r2) = true :=
    tableDiffNonempty_of_df_ne_nil (List.ne_nil_of_mem hmemf)
  refine ⟨compareFields r1 r2, ?hmem, ⟨f1, f2, true⟩, hmemf, rfl⟩
  rw [mem_different_tables_compare]
  exact ⟨r1, r2, hr1, hr2, hnonempty, rfl⟩

def w5f1 : Field := ⟨"email", "varchar(255)", "YES", "", none, ""⟩

def w5f2 : Field := ⟨"email", "varchar(255)", "YES", "", some "", ""⟩

def w5db1 : Dict (List Field) := [("users", [w5f1])]

def w5db2 : Dict (List Field) := [("users", [w5f2])]

/-- Witness for C5 at a concrete input: absent default on the left, explicit
empty-string default on the right. -/
theorem default_none_vs_empty_string_registers_diff_witness :
    (dget w5db1 "users" = some [w5f1] ∧ dget w5db2 "users" = some [w5f2] ∧
      dget (fieldsDict [w5f1]) "email" = some w5f1 ∧
      dget (fieldsDict [w5f2]) "email" = some w5f2 ∧
      w5f1.fdefault = none ∧ w5f2.fdefault = some "") ∧
    (∃ td, ("users", td) ∈ (compare_table_structures w5db1 w5db2).different_tables ∧
      ∃ cd, ("email", cd) ∈ td.different_fields ∧ cd.default_value_diff = true) :=
  ⟨⟨by decide, by decide, by decide, by decide, by decide, by decide⟩,
    default_none_vs_empty_string_registers_diff w5db1 w5db2 "users" [w5f1] [w5f2]
      (by decide) (by decide) "email" w5f1 w5f2 (by decide) (by decide)
      (by decide) (by decide)⟩

/-- C4: every ColumnDiff in the differ's output carries the two actual
descriptors of that column, its stored default-value flag is true exactly
when the two default values differ, and each of the five per-attribute
flags the export derives from it (type, nullability, key role, default,
extra) is the yes-marker exactly when that attribute differs between the
two descriptors. -/
theorem column_diff_descriptors_and_flags
    (db1 db2 : Dict (List Field)) (t : String) (td : TableDiff)
    (hmem : (t, td) ∈ (compare_table_structures db1 db2).different_tables)
    (c : String) (cd : ColumnDiff) (hcd : (c, cd) ∈ td.different_fields) :
    ∃ r1 r2 f1 f2,
      dget db1 t = some r1 ∧ dget db2 t = some r2 ∧
      dget (fieldsDict r1) c = some f1 ∧ dget (fieldsDict r2) c = some f2 ∧
      cd.db1 = f1 ∧ cd.db2 = f2 ∧
      (type_diff cd = "是" ↔ f1.ftype ≠ f2.ftype) ∧
      (null_diff cd = "是" ↔ f1.fnull ≠ f2.fnull) ∧
      (key_diff cd = "是" ↔ f1.fkey ≠ f2.fkey) ∧
      (default_diff cd = "是" ↔ f1.fdefault ≠ f2.fdefault) ∧
      (extra_diff cd = "是" ↔ f1.fextra ≠ f2.fextra) ∧
      (cd.default_value_diff = true ↔ f1.fdefault ≠ f2.fdefault) := by
  rw [mem_different_tables_compare] at hmem
  obtain ⟨r1, r2, h1, h2, hne, htd⟩ := hmem
  subst htd
  rw [mem_different_fields_compareFields] at hcd
  obtain ⟨f1, f2, hf1, hf2, hc⟩ := hcd
  unfold columnDiffOf at hc
  by_cases hne12 : f1 ≠ f2
  · rw [if_pos hne12] at hc
    obtain rfl := Option.some_inj.mp hc
    refine ⟨r1, r2, f1, f2, h1, h2, hf1, hf2, rfl, rfl,
      ?ht, ?hn, ?hk, ?hd, ?he, ?hv⟩
    case ht =>
      unfold type_diff
      exact flag_eq_yes_iff _
    case hn =>
      unfold null_diff
      exact flag_eq_yes_iff _
    case hk =>
      unfold key_diff
      exact flag_eq_yes_iff _
    case hd =>
      unfold default_diff
      exact flag_eq_yes_iff _
    case he =>
      unfold extra_diff
      exact flag_eq_yes_iff _
    case hv =>
      simp
  · rw [if_neg hne12] at hc
    exact Option.noConfusion hc

def w4f1 : Field := ⟨"id", "int(11)", "NO", "PRI", none, "auto_increment"⟩

def w4f2 : Field := ⟨"id", "INT(11)", "NO", "PRI", none, "auto_increment"⟩

def w4db1 : Dict (List Field) := [("users", [w4f1])]

def w4db2 : Dict (List Field) := [("users", [w4f2])]

/-- Witness for C4 at a concrete input: the differing `id` column's entry in
the result carries both descriptors and correct flags. -/
theorem column_diff_descriptors_and_flags_witness :
    (("users", compareFields [w4f1] [w4f2]) ∈
        (compare_table_structures w4db1 w4db2).different_tables ∧
      ("id", (⟨w4f1, w4f2, false⟩ : ColumnDiff)) ∈
        (compareFields [w4f1] [w4f2]).different_fields) ∧
    (∃ r1 r2 f1 f2,
      dget w4db1 "users" = some r1 ∧ dget w4db2 "users" = some r2 ∧
      dget (fieldsDict r1) "id" = some f1 ∧ dget (fieldsDict r2) "id" = some f2 ∧
      (⟨w4f1, w4f2, false⟩ : ColumnDiff).db1 = f1 ∧
      (⟨w4f1, w4f2, false⟩ : ColumnDiff).db2 = f2 ∧
      (type_diff ⟨w4f1, w4f2, false⟩ = "是" ↔ f1.ftype ≠ f2.ftype) ∧
      (null_diff ⟨w4f1, w4f2, false⟩ = "是" ↔ f1.fnull ≠ f2.fnull) ∧
      (key_diff ⟨w4f1, w4f2, false⟩ = "是" ↔ f1.fkey ≠ f2.fkey) ∧
      (default_diff ⟨w4f1, w4f2, false⟩ = "是" ↔ f1.fdefault ≠ f2.fdefault) ∧
      (extra_diff ⟨w4f1, w4f2, false⟩ = "是" ↔ f1.fextra ≠ f2.fextra) ∧
      ((⟨w4f1, w4f2, false⟩ : ColumnDiff).default_value_diff = true ↔
        f1.fdefault ≠ f2.fdefault)) :=
  ⟨⟨by decide, by decide⟩,
    column_diff_descriptors_and_flags w4db1 w4db2 "users"
      (compareFields [w4f1] [w4f2]) (by decide) "id"
      ⟨w4f1, w4f2, false⟩ (by decide)⟩
